import Mathlib

/-!
Shallow embedding of `src/sft/trainer.py` (a minimal supervised fine-tuning
loop) and proofs about it.  Python floats are modelled as exact rationals,
Python lists as Lean lists, and the filesystem side effects of the checkpoint
manager as an explicit action trace.  Fallible code (regex-key extraction that
can raise `IndexError`, the training loop's crashes on a missing scheduler or
a zero log interval) is modelled with `Option`/`Except`.
-/

namespace SftTrainer

/-- State of `LossTracker` (trainer.py lines 203-229): running mean `_loss`,
sample count `loss_count`, rounding precision `ndigits` (constructor default
4), and the epoch-end `history`. -/
structure LossTracker where
  ndigits : Nat
  _loss : Rat
  loss_count : Nat
  history : List Rat

/-- A `LossTracker()` as built by the Python constructor with the given
`ndigits` (the Python default argument is 4): mean 0.0, count 0, empty
history. -/
def freshLossTracker (ndigits : Nat) : LossTracker :=
  { ndigits := ndigits, _loss := 0, loss_count := 0, history := [] }

/-- Round a rational to the nearest integer, ties to even — the semantics of
Python's builtin `round` (used by `LossTracker.loss`). -/
def rndHalfEven (s : Rat) : Int :=
  if s - ⌊s⌋ < 1/2 then ⌊s⌋
  else if (1 : Rat)/2 < s - ⌊s⌋ then ⌊s⌋ + 1
  else if ⌊s⌋ % 2 = 0 then ⌊s⌋ else ⌊s⌋ + 1

/-- Python `round(q, n)` for nonnegative `n`: round `q * 10^n` half-to-even,
then scale back. -/
def pyRound (q : Rat) (n : Nat) : Rat :=
  ((rndHalfEven (q * 10 ^ n) : Rat)) / 10 ^ n

/-- Method `LossTracker.update` (trainer.py lines 213-216): fold the new loss value
into the running mean with
`self._loss = (self._loss * self.loss_count + loss) / (self.loss_count + 1)`
and increment the count.  The `.item()` extraction of the scalar from the
tensor is modelled by taking the rational value directly. -/
def LossTracker.update (t : LossTracker) (loss : Rat) : LossTracker :=
  { t with
    _loss := (t._loss * t.loss_count + loss) / (t.loss_count + 1)
    loss_count := t.loss_count + 1 }

/-- Method `LossTracker.reset` (trainer.py lines 218-220): zero the mean and the
count. -/
def LossTracker.reset (t : LossTracker) : LossTracker :=
  { t with _loss := 0, loss_count := 0 }

/-- The `LossTracker.loss` property (trainer.py lines 227-229):
`round(float(self._loss), self.ndigits)`. -/
def LossTracker.loss (t : LossTracker) : Rat :=
  pyRound t._loss t.ndigits

/-- Method `LossTracker.on_epoch_end` (trainer.py lines 222-225): append the current
rounded loss to the history, then reset when `reset` is true (the Python
default). -/
def LossTracker.on_epoch_end (t : LossTracker) (reset : Bool) : LossTracker :=
  let t' := { t with history := t.history ++ [t.loss] }
  if reset then t'.reset else t'

/-- Numeric value of a digit run, most significant digit first (Python `int`
applied to the matched digit string). -/
def natOfDigits (cs : List Char) : Nat :=
  cs.foldl (fun a c => 10 * a + (c.toNat - 48)) 0

/-- Scanner for `re.findall(r'[\/]?([0-9]+)(?=[^\/]*$)', folder)` used by the
`_inner` sort key in `Trainer.get_checkpoint_dir` (trainer.py lines 132-133).
The regex engine scans left to right; a maximal digit run is captured exactly
when the rest of the string after the run contains no slash (the lookahead
`(?=[^\/]*$)`; when the lookahead fails both the backtracked sub-runs and the
later start positions inside the same run fail too, so the run contributes
nothing).  `cur` accumulates the digit run currently being read. -/
def scanTokens : List Char → List Char → List Nat
  | cur, [] => if cur.isEmpty then [] else [natOfDigits cur]
  | cur, c :: rest =>
    if c.isDigit then scanTokens (cur ++ [c]) rest
    else if cur.isEmpty then scanTokens [] rest
    else if (c :: rest).contains '/' then scanTokens [] rest
    else natOfDigits cur :: scanTokens [] rest

/-- All digit tokens of `path` captured by the regex of `_inner`. -/
def findTokens (path : List Char) : List Nat :=
  scanTokens [] path

/-- The sort key `_inner` (trainer.py lines 132-133):
`list(map(int, re.findall(r'[\/]?([0-9]+)(?=[^\/]*$)', folder)))[0]`.
`none` models the `IndexError` raised when the final path component contains
no digits. -/
def _inner (folder : List Char) : Option Nat :=
  (findTokens folder).head?

/-- Total version of the `_inner` key used for sorting (on the code path that
sorts, every folder has been checked to have a key). -/
def keyD (folder : List Char) : Nat :=
  (_inner folder).getD 0

/-- Comparison relation used to model `folders.sort(key=_inner)`. -/
def keyLe (a b : List Char) : Prop :=
  keyD a ≤ keyD b

instance : DecidableRel keyLe :=
  fun a b => Nat.decLe (keyD a) (keyD b)

instance : IsTotal (List Char) keyLe :=
  ⟨fun a b => Nat.le_total (keyD a) (keyD b)⟩

instance : IsTrans (List Char) keyLe :=
  ⟨fun _ _ _ h h' => Nat.le_trans h h'⟩

/-- Configuration fields of the accelerator's `ProjectConfiguration` read or
written by `Trainer.get_checkpoint_dir`. -/
structure ProjectConfiguration where
  project_dir : List Char
  automatic_checkpoint_naming : Bool
  total_limit : Option Nat

/-- Filesystem and configuration side effects of `get_checkpoint_dir`, in
execution order. -/
inductive FsAction where
  | setAutoNamingFalse
  | makedirs (path : List Char)
  | rmtree (path : List Char)

/-- Result of one call to `get_checkpoint_dir`: the updated project
configuration, the ordered trace of side effects performed before returning
(or before raising), and — unless the call raised `IndexError` while sorting —
the final listing of the checkpoints directory together with the returned
path. -/
structure CkptOutcome where
  config : ProjectConfiguration
  actions : List FsAction
  result : Option (List (List Char) × List (List Char) × List Char)

/-- Path `output_dir = os.path.join(self.accelerator.project_dir, 'checkpoints')`
(trainer.py line 124); the join is modelled as slash concatenation. -/
def outputDirOf (cfg : ProjectConfiguration) : List Char :=
  cfg.project_dir ++ '/' :: ("checkpoints").data

/-- The full path `os.path.join(output_dir, folder)` of a listed checkpoint
folder (trainer.py line 127). -/
def ckptPath (cfg : ProjectConfiguration) (name : List Char) : List Char :=
  outputDirOf cfg ++ '/' :: name

/-- Name of the directory created for `current_epoch`:
`f'checkpoint_{current_epoch-1}'`. -/
def checkpointFolderName (epochIndex : Nat) : List Char :=
  ("checkpoint_").data ++ Nat.toDigits 10 epochIndex

/-- The path returned for `current_epoch` (trainer.py line 139). -/
def newDirOf (cfg : ProjectConfiguration) (current_epoch : Nat) : List Char :=
  outputDirOf cfg ++ '/' :: checkpointFolderName (current_epoch - 1)

/-- Effect of `os.makedirs(path, exist_ok=True)` on a directory listing. -/
def addIfAbsent (l : List (List Char)) (x : List Char) : List (List Char) :=
  if x ∈ l then l else l ++ [x]

/-- Method `Trainer.get_checkpoint_dir` (trainer.py lines 121-142).  Inputs: the
project configuration, whether this process is the local main process, the
current listing of `<project_dir>/checkpoints` (`os.listdir` names, assumed
slash-free as directory entries are), and `current_epoch`.  The outcome
records the configuration write, the ordered side effects, and — when no
`IndexError` is raised — the pair (paths deleted, final listing) plus the
returned path.  Only the main process touches the filesystem; the
configuration write happens unconditionally first. -/
def get_checkpoint_dir (cfg : ProjectConfiguration) (is_local_main_process : Bool)
    (names : List (List Char)) (current_epoch : Nat) : CkptOutcome :=
  let cfg' := { cfg with automatic_checkpoint_naming := false }
  let output_dir := outputDirOf cfg
  let new_dir := newDirOf cfg current_epoch
  if is_local_main_process then
    let folders := names.map (ckptPath cfg)
    let pruned : Option (List (List Char) × List (List Char)) :=
      match cfg.total_limit with
      | some limit =>
        if limit < folders.length + 1 then
          if folders.any (fun f => (_inner f).isNone) then none
          else
            let sorted := List.insertionSort keyLe folders
            let k := folders.length + 1 - limit
            some (sorted.take k, sorted.drop k)
        else some ([], folders)
      | none => some ([], folders)
    match pruned with
    | none =>
      { config := cfg'
        actions := [FsAction.setAutoNamingFalse, FsAction.makedirs output_dir]
        result := none }
    | some (deleted, remaining) =>
      { config := cfg'
        actions := [FsAction.setAutoNamingFalse, FsAction.makedirs output_dir]
          ++ deleted.map FsAction.rmtree ++ [FsAction.makedirs new_dir]
        result := some (deleted, addIfAbsent remaining new_dir, new_dir) }
  else
    { config := cfg'
      actions := [FsAction.setAutoNamingFalse]
      result := some ([], names.map (ckptPath cfg), new_dir) }

/-- Recognizer for deletion actions. -/
def isRmtreeAct : FsAction → Bool
  | FsAction.rmtree _ => true
  | _ => false

/-- Number of directories deleted during a call. -/
def countRmtree (actions : List FsAction) : Nat :=
  actions.countP isRmtreeAct

/-- Size of the final listing of the checkpoints directory, when the call
returned normally. -/
def resultLen (o : CkptOutcome) : Option Nat :=
  o.result.map (fun r => r.2.1.length)

/-- Metric records handed to the logging sink by the training loop. -/
inductive Event where
  | stepLog (loss lr : Rat) (step : Nat)
  | epochLog (loss : Rat) (epoch : Nat)
  | valLog (loss : Rat) (epoch : Nat)
  | checkpointSaved (epoch : Nat)

/-- Exceptions the training loop can raise: `AttributeError` from
`self.lr_scheduler.get_lr()` when no scheduler is configured, and
`ZeroDivisionError` from `batch_index % self.log_interval` when the log
interval is zero. -/
inductive TrainError where
  | noScheduler
  | modByZero

/-- The per-batch loop of `Trainer.train` (trainer.py lines 57-79).  One
entry of `batches` is the scalar loss produced by the model's forward pass on
that batch.  Per batch: fold the loss into the tracker, advance the global
step, and when `batch_index % log_interval == 0` emit a step-level metrics
record `{loss, lr}` — which evaluates `self.lr_scheduler.get_lr()` and hence
raises when the scheduler is `None`.  Returns the final global step, the
final tracker, and the emitted events. -/
def runBatches (log_interval : Nat) (lr_sched : Option Rat) :
    List Rat → Nat → Nat → LossTracker →
    Except TrainError (Nat × LossTracker × List Event)
  | [], _, step, t => Except.ok (step, t, [])
  | v :: rest, idx, step, t =>
    let t' := t.update v
    let step' := step + 1
    if log_interval = 0 then Except.error TrainError.modByZero
    else if idx % log_interval = 0 then
      match lr_sched with
      | none => Except.error TrainError.noScheduler
      | some lr =>
        match runBatches log_interval lr_sched rest (idx + 1) step' t' with
        | Except.error e => Except.error e
        | Except.ok (s, tr, evs) =>
          Except.ok (s, tr, Event.stepLog t'.loss lr step' :: evs)
    else
      match runBatches log_interval lr_sched rest (idx + 1) step' t' with
      | Except.error e => Except.error e
      | Except.ok (s, tr, evs) => Except.ok (s, tr, evs)

/-- The only facet of the external model the loop manipulates directly: its
train/eval mode flag. -/
structure SimpleModel where
  training : Bool

/-- Function `evaluate` (trainer.py lines 145-158): switch the model to eval mode,
fold every batch loss of the validation source into the tracker (a `None`
tracker is replaced by a fresh default one, per `loss_tracker or
LossTracker()`), read the rounded loss, end the tracker's epoch, and return
the read value.  Returns (model, returned loss, final tracker). -/
def evaluate (model : SimpleModel) (batch_losses : List Rat)
    (loss_tracker : Option LossTracker) : SimpleModel × Rat × LossTracker :=
  let m := { model with training := false }
  let t := loss_tracker.getD (freshLossTracker 4)
  let t1 := batch_losses.foldl LossTracker.update t
  let loss := t1.loss
  (m, loss, t1.on_epoch_end true)

/-- Trainer constructor arguments that drive the control flow of `train`. -/
structure TrainerConfig where
  epochs : Nat
  log_interval : Nat
  lr_sched : Option Rat
  save_on_epoch_end : Bool
  is_local_main_process : Bool

/-- One iteration of the epoch loop of `Trainer.train` (trainer.py lines
53-108): run the batch loop, log `{'train/loss': ...}` keyed by the epoch,
end the train tracker's epoch, optionally validate (logging
`{'validation/loss': ...}`), optionally checkpoint on the main process.
Returns the new global step, both trackers, and the emitted events. -/
def runEpoch (cfg : TrainerConfig) (train_batches : List Rat)
    (val_batches : Option (List Rat)) (current_epoch : Nat) (step : Nat)
    (train_tracker val_tracker : LossTracker) :
    Except TrainError (Nat × LossTracker × LossTracker × List Event) :=
  match runBatches cfg.log_interval cfg.lr_sched train_batches 0 step train_tracker with
  | Except.error e => Except.error e
  | Except.ok (step', tr, evs) =>
    let evs1 := evs ++ [Event.epochLog tr.loss current_epoch]
    let tr' := tr.on_epoch_end true
    let afterVal :=
      match val_batches with
      | some vls =>
        let r := evaluate { training := true } vls (some val_tracker)
        (evs1 ++ [Event.valLog r.2.1 current_epoch], r.2.2)
      | none => (evs1, val_tracker)
    let evs2 :=
      if cfg.save_on_epoch_end && cfg.is_local_main_process then
        afterVal.1 ++ [Event.checkpointSaved current_epoch]
      else afterVal.1
    Except.ok (step', tr', afterVal.2, evs2)

/-- The epoch recursion of `Trainer.train`: first argument is the number of
epochs still to run, second the 1-based index of the next epoch. -/
def runEpochs (cfg : TrainerConfig) (train_batches : List Rat)
    (val_batches : Option (List Rat)) :
    Nat → Nat → Nat → LossTracker → LossTracker →
    Except TrainError (Nat × List Event)
  | 0, _, step, _, _ => Except.ok (step, [])
  | n + 1, e, step, tt, vt =>
    match runEpoch cfg train_batches val_batches e step tt vt with
    | Except.error err => Except.error err
    | Except.ok (step', tt', vt', evs) =>
      match runEpochs cfg train_batches val_batches n (e + 1) step' tt' vt' with
      | Except.error err => Except.error err
      | Except.ok (stepF, evsF) => Except.ok (stepF, evs ++ evsF)

/-- Method `Trainer.train` (trainer.py lines 52-111): run `epochs` epochs starting
from a zero global step and fresh trackers (`current_epoch` ranges over
`range(1, epochs + 1)`). -/
def trainLoop (cfg : TrainerConfig) (train_batches : List Rat)
    (val_batches : Option (List Rat)) : Except TrainError (Nat × List Event) :=
  runEpochs cfg train_batches val_batches cfg.epochs 1 0
    (freshLossTracker 4) (freshLossTracker 4)

/-- Recognizer for step-level metric records. -/
def isStepLog : Event → Bool
  | Event.stepLog _ _ _ => true
  | _ => false

/-- Recognizer for epoch-end `train/loss` records. -/
def isEpochLog : Event → Bool
  | Event.epochLog _ _ => true
  | _ => false

/-- Events of a finished training run (none if it raised). -/
def eventsOf : Except TrainError (Nat × List Event) → List Event
  | Except.ok (_, evs) => evs
  | Except.error _ => []

/-- Number of step-level metric emissions of a finished run. -/
def stepLogCount (r : Except TrainError (Nat × List Event)) : Nat :=
  (eventsOf r).countP isStepLog

/-- Number of epoch-end `train/loss` emissions of a finished run. -/
def epochLogCount (r : Except TrainError (Nat × List Event)) : Nat :=
  (eventsOf r).countP isEpochLog

/-- Number of 0-based batch indices `idx, idx+1, ..., idx+len-1` that are
divisible by `log_interval` — the indices at which the batch loop emits a
step-level record. -/
def emissionCount (log_interval idx len : Nat) : Nat :=
  match len with
  | 0 => 0
  | n + 1 =>
    (if idx % log_interval = 0 then 1 else 0) + emissionCount log_interval (idx + 1) n

/-- Trainer configuration of the concrete scenario of the spec (section 8):
2 epochs, log interval 1, no validation, checkpointing disabled. -/
def scenarioCfg : TrainerConfig :=
  { epochs := 2, log_interval := 1, lr_sched := some 1
    save_on_epoch_end := false, is_local_main_process := true }

/-- The three batch losses per epoch of the concrete scenario. -/
def scenarioBatches : List Rat := [1, 2, 3]

/-- Project configuration of the spec's concrete retention scenario:
retention limit 2. -/
def retentionCfg : ProjectConfiguration :=
  { project_dir := ("proj").data, automatic_checkpoint_naming := true
    total_limit := some 2 }

/-- Four pre-existing checkpoint directories, for epochs 0 through 3. -/
def retentionNames : List (List Char) :=
  [("checkpoint_0").data, ("checkpoint_1").data,
   ("checkpoint_2").data, ("checkpoint_3").data]

/-- Project configuration with a configured retention limit of 0. -/
def limitZeroCfg : ProjectConfiguration :=
  { project_dir := ("proj").data, automatic_checkpoint_naming := true
    total_limit := some 0 }

/-- A single pre-existing checkpoint directory, for epoch 0. -/
def limitZeroNames : List (List Char) := [("checkpoint_0").data]

theorem update_ndigits (t : LossTracker) (v : Rat) : (t.update v).ndigits = t.ndigits :=
  rfl

theorem update_history (t : LossTracker) (v : Rat) : (t.update v).history = t.history :=
  rfl

theorem foldl_update_ndigits (vs : List Rat) :
    ∀ t : LossTracker, (vs.foldl LossTracker.update t).ndigits = t.ndigits := by
  induction vs with
  | nil => intro t; rfl
  | cons v rest ih => intro t; simpa using ih (t.update v)

theorem foldl_update_history (vs : List Rat) :
    ∀ t : LossTracker, (vs.foldl LossTracker.update t).history = t.history := by
  induction vs with
  | nil => intro t; rfl
  | cons v rest ih => intro t; simpa using ih (t.update v)

theorem foldl_update_count (vs : List Rat) :
    ∀ t : LossTracker, (vs.foldl LossTracker.update t).loss_count = t.loss_count + vs.length := by
  induction vs with
  | nil => intro t; simp
  | cons v rest ih =>
    intro t
    rw [List.foldl_cons, ih (t.update v)]
    simp [LossTracker.update]
    omega

theorem foldl_update_mul (vs : List Rat) :
    ∀ t : LossTracker,
      (vs.foldl LossTracker.update t)._loss * ((vs.foldl LossTracker.update t).loss_count : Rat)
        = t._loss * (t.loss_count : Rat) + vs.sum := by
  induction vs with
  | nil => intro t; simp
  | cons v rest ih =>
    intro t
    have h := ih (t.update v)
    have hne : ((t.loss_count : Rat) + 1) ≠ 0 := by positivity
    simp only [List.foldl_cons] at *
    rw [h]
    simp only [LossTracker.update, List.sum_cons]
    push_cast
    rw [div_mul_cancel₀ _ hne]
    ring

theorem foldl_update_loss_of_zero (t : LossTracker) (vs : List Rat)
    (h0 : t._loss = 0) (h1 : t.loss_count = 0) :
    (vs.foldl LossTracker.update t)._loss = vs.sum / vs.length := by
  cases vs with
  | nil => simp [h0]
  | cons v rest =>
    have hm := foldl_update_mul (v :: rest) t
    have hc := foldl_update_count (v :: rest) t
    rw [h0, h1] at hm
    rw [h1] at hc
    rw [hc] at hm
    have hlen : (((v :: rest).length : Rat)) ≠ 0 := by
      exact_mod_cast Nat.cast_ne_zero.mpr (by simp)
    rw [eq_div_iff hlen]
    simpa using hm

theorem pyRound_zero (n : Nat) : pyRound 0 n = 0 := by
  have h : rndHalfEven 0 = 0 := by
    simp [rndHalfEven]
  simp [pyRound, h]

/-- C1: feeding any nonempty sequence of values to a fresh (or just-reset)
`LossTracker` makes the internal mean exactly the arithmetic mean of the
sequence, `loss` reads that mean rounded to the configured number of digits
(4 by default), and each `update` applies the incremental formula
`mean' = (mean * count + value) / (count + 1)` and increments the count by
one. -/
theorem loss_tracker_running_mean (n : Nat) (t : LossTracker) (vs : List Rat)
    (hne : vs ≠ []) :
    (vs.foldl LossTracker.update (freshLossTracker n))._loss = vs.sum / vs.length ∧
    (vs.foldl LossTracker.update (freshLossTracker n)).loss
      = pyRound (vs.sum / vs.length) n ∧
    (vs.foldl LossTracker.update (freshLossTracker n)).loss_count = vs.length ∧
    (vs.foldl LossTracker.update t.reset)._loss = vs.sum / vs.length ∧
    (freshLossTracker 4).ndigits = 4 ∧
    (∀ (u : LossTracker) (v : Rat),
      (u.update v)._loss = (u._loss * u.loss_count + v) / (u.loss_count + 1) ∧
      (u.update v).loss_count = u.loss_count + 1) := by
  have hfresh : (freshLossTracker n)._loss = 0 ∧ (freshLossTracker n).loss_count = 0 :=
    ⟨rfl, rfl⟩
  refine ⟨foldl_update_loss_of_zero _ _ hfresh.1 hfresh.2, ?_, ?_, ?_, rfl, ?_⟩
  · rw [LossTracker.loss, foldl_update_ndigits,
      foldl_update_loss_of_zero _ _ hfresh.1 hfresh.2]
    rfl
  · rw [foldl_update_count]
    simp [freshLossTracker]
  · exact foldl_update_loss_of_zero t.reset vs rfl rfl
  · intro u v
    exact ⟨rfl, rfl⟩

/-- C1 witness: the theorem applied to the values 1, 2, 9 fed to a fresh
default tracker, whose mean is 4. -/
theorem loss_tracker_running_mean_witness :
    (([1, 2, 9] : List Rat).foldl LossTracker.update (freshLossTracker 4))._loss
      = ([1, 2, 9] : List Rat).sum / ([1, 2, 9] : List Rat).length := by
  have h := loss_tracker_running_mean 4 (freshLossTracker 4) [1, 2, 9] (by simp)
  exact h.1

/-- C7: `on_epoch_end true` appends exactly the pre-call rounded mean to the
history and zeroes the mean and the count (so `loss` then reads 0.0);
`on_epoch_end false` appends the same element and leaves mean and count
unchanged. -/
theorem on_epoch_end_contract (t : LossTracker) :
    (t.on_epoch_end true).history = t.history ++ [t.loss] ∧
    (t.on_epoch_end true).loss = 0 ∧
    (t.on_epoch_end true)._loss = 0 ∧
    (t.on_epoch_end true).loss_count = 0 ∧
    (t.on_epoch_end false).history = t.history ++ [t.loss] ∧
    (t.on_epoch_end false)._loss = t._loss ∧
    (t.on_epoch_end false).loss_count = t.loss_count := by
  refine ⟨rfl, ?_, rfl, rfl, rfl, rfl, rfl⟩
  show pyRound 0 t.ndigits = 0
  exact pyRound_zero t.ndigits

/-- C8: `loss` on a tracker that has received no updates (fresh or just
reset) evaluates to 0.0, and the only division performed by the tracker is
`update`'s division by `count + 1`, whose divisor is never zero. -/
theorem loss_no_updates_zero :
    (∀ n : Nat, (freshLossTracker n).loss = 0) ∧
    (∀ t : LossTracker, t.reset.loss = 0) ∧
    (∀ (t : LossTracker) (v : Rat),
      ((t.loss_count : Rat) + 1) ≠ 0 ∧
      (t.update v)._loss = (t._loss * t.loss_count + v) / (t.loss_count + 1) ∧
      (t.update v).loss_count = t.loss_count + 1) := by
  refine ⟨fun n => pyRound_zero n, fun t => pyRound_zero t.ndigits, fun t v => ⟨?_, rfl, rfl⟩⟩
  positivity

/-- C9: `reset` zeroes the mean and the count and changes nothing else — the
history and the configured rounding precision are untouched. -/
theorem reset_frame (t : LossTracker) :
    t.reset._loss = 0 ∧ t.reset.loss_count = 0 ∧
    t.reset.history = t.history ∧ t.reset.ndigits = t.ndigits :=
  ⟨rfl, rfl, rfl, rfl⟩

/-- C6 (amended): for a tracker whose running state is zero (fresh or just
reset), `evaluate` switches the model to evaluation mode, feeds every batch
loss into the tracker exactly once, returns the tracker's rounded mean over
exactly those batches, and finalizes the tracker by appending that same
returned value to its history and resetting mean and count to zero. -/
theorem evaluate_contract (m : SimpleModel) (losses : List Rat) (t : LossTracker)
    (h0 : t._loss = 0) (h1 : t.loss_count = 0) :
    (evaluate m losses (some t)).1.training = false ∧
    (evaluate m losses (some t)).2.1 = pyRound (losses.sum / losses.length) t.ndigits ∧
    (evaluate m losses (some t)).2.2.history
      = t.history ++ [(evaluate m losses (some t)).2.1] ∧
    (evaluate m losses (some t)).2.2._loss = 0 ∧
    (evaluate m losses (some t)).2.2.loss_count = 0 ∧
    (losses.foldl LossTracker.update t).loss_count = losses.length := by
  have hloss : (losses.foldl LossTracker.update t)._loss = losses.sum / losses.length :=
    foldl_update_loss_of_zero t losses h0 h1
  have hval : (evaluate m losses (some t)).2.1 = pyRound (losses.sum / losses.length) t.ndigits := by
    show (losses.foldl LossTracker.update t).loss = _
    rw [LossTracker.loss, foldl_update_ndigits, hloss]
  refine ⟨rfl, hval, ?_, rfl, rfl, ?_⟩
  · have hv : (losses.foldl LossTracker.update t).loss
        = pyRound (losses.sum / losses.length) t.ndigits := by
      rw [LossTracker.loss, foldl_update_ndigits, hloss]
    show (losses.foldl LossTracker.update t).history
      ++ [(losses.foldl LossTracker.update t).loss] = _
    rw [foldl_update_history, hv, hval]
  · rw [foldl_update_count, h1]
    simp

/-- C6 witness: the amended theorem applied to the batch losses 2 and 4 and a
fresh default tracker; the returned value is the rounded mean 3. -/
theorem evaluate_contract_witness :
    (evaluate { training := true } [2, 4] (some (freshLossTracker 4))).2.1
      = pyRound (([2, 4] : List Rat).sum / ([2, 4] : List Rat).length) 4 :=
  (evaluate_contract { training := true } [2, 4] (freshLossTracker 4) rfl rfl).2.1

/-- C6 counterexample: for a tracker that already accumulated the value 10,
`evaluate` on the single batch loss 0 returns 5 — the average of the prior
state with the new batch — not 0, the rounded mean over exactly the supplied
batches.  So the claim is false for arbitrary tracker states. -/
theorem evaluate_nonfresh_tracker_cex :
    (evaluate { training := true } [0] (some ((freshLossTracker 4).update 10))).2.1 = 5 ∧
    pyRound (([0] : List Rat).sum / ([0] : List Rat).length) 4 = 0 ∧
    (5 : Rat) ≠ 0 := by
  refine ⟨?_, ?_, by norm_num⟩
  · show (([0] : List Rat).foldl LossTracker.update ((freshLossTracker 4).update 10)).loss = 5
    have h1 : ((freshLossTracker 4).update 10)._loss = 10 := by
      show ((0 : Rat) * (0 : Nat) + 10) / ((0 : Nat) + 1) = 10
      norm_num
    have h2 : (([0] : List Rat).foldl LossTracker.update ((freshLossTracker 4).update 10))._loss
        = 5 := by
      show ((((freshLossTracker 4).update 10)._loss
        * (((freshLossTracker 4).update 10).loss_count : Rat) + 0)
        / ((((freshLossTracker 4).update 10).loss_count : Rat) + 1)) = 5
      rw [h1]
      show ((10 : Rat) * ((1 : Nat) : Rat) + 0) / (((1 : Nat) : Rat) + 1) = 5
      norm_num
    rw [LossTracker.loss, h2]
    show ((rndHalfEven (5 * 10 ^ 4) : Rat)) / 10 ^ 4 = 5
    have h3 : rndHalfEven (5 * 10 ^ 4) = 50000 := by
      rw [rndHalfEven]
      norm_num
    rw [h3]
    norm_num
  · have h : ([0] : List Rat).sum / ([0] : List Rat).length = 0 := by
      simp
    rw [h, pyRound_zero]

theorem scanTokens_append_slash (l : List Char) :
    ∀ (p cur : List Char), scanTokens cur (p ++ '/' :: l) = scanTokens [] l := by
  intro p
  induction p with
  | nil =>
    intro cur
    cases cur with
    | nil => simp [scanTokens]
    | cons a as =>
      have hcont : (('/' :: l).contains '/') = true :=
        List.elem_eq_true_of_mem (List.mem_cons_self '/' l)
      simp [scanTokens, hcont]
  | cons c p ih =>
    intro cur
    by_cases hd : c.isDigit
    · simpa [scanTokens, hd] using ih (cur ++ [c])
    · by_cases hc : cur.isEmpty
      · simpa [scanTokens, hd, hc] using ih []
      · have hcont : ((c :: (p ++ '/' :: l)).contains '/') = true := by
          refine List.elem_eq_true_of_mem ?_
          exact List.mem_cons_of_mem c (List.mem_append_right p (List.mem_cons_self '/' l))
        simpa [scanTokens, hd, hc, hcont] using ih []

/-- C3 (amended): the `_inner` sort key of a checkpoint path is the FIRST
numeric token of the path's final name component — the regex lookahead
restricts the captured tokens to the part of the path after the last slash,
and the `[0]` index selects the first of them, not the last. -/
theorem sort_key_first_token_after_last_slash (p name : List Char) :
    _inner (p ++ '/' :: name) = (findTokens name).head? := by
  rw [_inner, findTokens, findTokens, scanTokens_append_slash name p []]

/-- C3 counterexample: for the checkpoint path `ckpt/v2_checkpoint_7`, whose
final name component contains the numeric tokens 2 and 7, the code's sort key
is 2 (the first token), while the trailing (last) numeric token is 7.  So the
claim that the key is the last numeric token is false. -/
theorem sort_key_not_last_token_cex :
    _inner (("ckpt/v2_checkpoint_7").data) = some 2 ∧
    (findTokens (("v2_checkpoint_7").data)).getLast? = some 7 ∧
    (2 : Nat) ≠ 7 := by
  refine ⟨by decide, by decide, by decide⟩

theorem countP_map_rmtree (l : List (List Char)) :
    (l.map FsAction.rmtree).countP isRmtreeAct = l.length := by
  induction l with
  | nil => simp
  | cons a l ih => simp [isRmtreeAct, ih]

theorem countRmtree_shape (a b : List Char) (deleted : List (List Char)) :
    countRmtree ([FsAction.setAutoNamingFalse, FsAction.makedirs a]
      ++ deleted.map FsAction.rmtree ++ [FsAction.makedirs b]) = deleted.length := by
  simp [countRmtree, List.countP_append, countP_map_rmtree, isRmtreeAct]

theorem addIfAbsent_length_le (l : List (List Char)) (x : List Char) :
    (addIfAbsent l x).length ≤ l.length + 1 := by
  rw [addIfAbsent]
  split
  · omega
  · simp

theorem gcd_eq_of_none (cfg : ProjectConfiguration) (names : List (List Char))
    (epoch : Nat) (h : cfg.total_limit = none) :
    get_checkpoint_dir cfg true names epoch =
      { config := { cfg with automatic_checkpoint_naming := false }
        actions := [FsAction.setAutoNamingFalse, FsAction.makedirs (outputDirOf cfg),
          FsAction.makedirs (newDirOf cfg epoch)]
        result := some ([],
          addIfAbsent (names.map (ckptPath cfg)) (newDirOf cfg epoch),
          newDirOf cfg epoch) } := by
  simp [get_checkpoint_dir, h]

theorem gcd_eq_of_not_exceeded (cfg : ProjectConfiguration) (names : List (List Char))
    (epoch : Nat) (L : Nat) (h : cfg.total_limit = some L)
    (h2 : ¬ L < names.length + 1) :
    get_checkpoint_dir cfg true names epoch =
      { config := { cfg with automatic_checkpoint_naming := false }
        actions := [FsAction.setAutoNamingFalse, FsAction.makedirs (outputDirOf cfg),
          FsAction.makedirs (newDirOf cfg epoch)]
        result := some ([],
          addIfAbsent (names.map (ckptPath cfg)) (newDirOf cfg epoch),
          newDirOf cfg epoch) } := by
  simp [get_checkpoint_dir, h, h2]

theorem gcd_eq_of_crash (cfg : ProjectConfiguration) (names : List (List Char))
    (epoch : Nat) (L : Nat) (h : cfg.total_limit = some L)
    (h2 : L < names.length + 1)
    (h3 : (names.map (ckptPath cfg)).any (fun f => (_inner f).isNone) = true) :
    get_checkpoint_dir cfg true names epoch =
      { config := { cfg with automatic_checkpoint_naming := false }
        actions := [FsAction.setAutoNamingFalse, FsAction.makedirs (outputDirOf cfg)]
        result := none } := by
  simp [get_checkpoint_dir, h, h2, h3]

theorem gcd_eq_of_exceeded (cfg : ProjectConfiguration) (names : List (List Char))
    (epoch : Nat) (L : Nat) (h : cfg.total_limit = some L)
    (h2 : L < names.length + 1)
    (h3 : (names.map (ckptPath cfg)).any (fun f => (_inner f).isNone) = false) :
    get_checkpoint_dir cfg true names epoch =
      { config := { cfg with automatic_checkpoint_naming := false }
        actions := [FsAction.setAutoNamingFalse, FsAction.makedirs (outputDirOf cfg)]
          ++ ((List.insertionSort keyLe (names.map (ckptPath cfg))).take
              (names.length + 1 - L)).map FsAction.rmtree
          ++ [FsAction.makedirs (newDirOf cfg epoch)]
        result := some
          ((List.insertionSort keyLe (names.map (ckptPath cfg))).take
              (names.length + 1 - L),
            addIfAbsent
              ((List.insertionSort keyLe (names.map (ckptPath cfg))).drop
                (names.length + 1 - L)) (newDirOf cfg epoch),
            newDirOf cfg epoch) } := by
  simp [get_checkpoint_dir, h, h2, h3]

theorem any_isNone_false_of_parse (cfg : ProjectConfiguration)
    (names : List (List Char))
    (hparse : ∀ n ∈ names, (_inner (ckptPath cfg n)).isSome) :
    (names.map (ckptPath cfg)).any (fun f => (_inner f).isNone) = false := by
  rw [List.any_eq_false]
  intro f hf
  rcases List.mem_map.mp hf with ⟨n, hn, rfl⟩
  rcases Option.isSome_iff_exists.mp (hparse n hn) with ⟨a, ha⟩
  simp [ha]

/-- C2 (amended): on the coordinating process, for directories with parseable
epoch keys and a retention limit of at least 1: with no configured limit
nothing is deleted; with limit `L`, when `n + 1 > L` exactly `n + 1 - L`
directories are deleted, every deleted directory's parsed key is at most
every surviving directory's parsed key (oldest first), and the final listing
after the new directory is created never exceeds `L` entries. -/
theorem checkpoint_retention_bound (cfg : ProjectConfiguration)
    (names : List (List Char)) (epoch : Nat) (hnd : names.Nodup)
    (hparse : ∀ n ∈ names, (_inner (ckptPath cfg n)).isSome) :
    (cfg.total_limit = none →
      countRmtree (get_checkpoint_dir cfg true names epoch).actions = 0) ∧
    (∀ L, cfg.total_limit = some L → 1 ≤ L →
      countRmtree (get_checkpoint_dir cfg true names epoch).actions
        = (if L < names.length + 1 then names.length + 1 - L else 0) ∧
      (∀ p, FsAction.rmtree p ∈ (get_checkpoint_dir cfg true names epoch).actions →
        ∀ q ∈ names.map (ckptPath cfg),
          FsAction.rmtree q ∉ (get_checkpoint_dir cfg true names epoch).actions →
          keyD p ≤ keyD q) ∧
      (∃ m, resultLen (get_checkpoint_dir cfg true names epoch) = some m ∧ m ≤ L)) := by
  constructor
  · intro h
    rw [gcd_eq_of_none cfg names epoch h]
    simp [countRmtree, isRmtreeAct]
  · intro L hL h1L
    by_cases hx : L < names.length + 1
    · rw [gcd_eq_of_exceeded cfg names epoch L hL hx
        (any_isNone_false_of_parse cfg names hparse)]
      have hslen : (List.insertionSort keyLe (names.map (ckptPath cfg))).length
          = names.length := by simp
      have hkle : names.length + 1 - L ≤ names.length := by omega
      refine ⟨?_, ?_, ?_⟩
      · rw [if_pos hx, countRmtree_shape, List.length_take, hslen]
        omega
      · intro p hp q hq hqnot
        have hperm := List.perm_insertionSort keyLe (names.map (ckptPath cfg))
        have hpmem : p ∈ (List.insertionSort keyLe (names.map (ckptPath cfg))).take
            (names.length + 1 - L) := by
          simp only [List.mem_append, List.mem_cons, List.mem_singleton,
            List.mem_map] at hp
          rcases hp with (h' | h') | h'
          · rcases h' with h' | h' <;> exact absurd h' (by simp)
          · rcases h' with ⟨a, ha, hae⟩
            obtain rfl : a = p := by injection hae
            exact ha
          · exact absurd h' (by simp)
        have hqsorted : q ∈ List.insertionSort keyLe (names.map (ckptPath cfg)) :=
          hperm.mem_iff.mpr hq
        have hqnot_take : q ∉ (List.insertionSort keyLe (names.map (ckptPath cfg))).take
            (names.length + 1 - L) := by
          intro hqt
          exact hqnot (by
            simp only [List.mem_append, List.mem_map]
            exact Or.inl (Or.inr ⟨q, hqt, rfl⟩))
        have hqdrop : q ∈ (List.insertionSort keyLe (names.map (ckptPath cfg))).drop
            (names.length + 1 - L) := by
          have hsplit := List.take_append_drop (names.length + 1 - L)
            (List.insertionSort keyLe (names.map (ckptPath cfg)))
          rw [← hsplit] at hqsorted
          rcases List.mem_append.mp hqsorted with h' | h'
          · exact absurd h' hqnot_take
          · exact h'
        have hsorted2 : List.Sorted keyLe
            (List.insertionSort keyLe (names.map (ckptPath cfg))) :=
          List.sorted_insertionSort keyLe _
        have hpair := hsorted2
        rw [← List.take_append_drop (names.length + 1 - L)
          (List.insertionSort keyLe (names.map (ckptPath cfg)))] at hpair
        exact (List.pairwise_append.mp hpair).2.2 p hpmem q hqdrop
      · refine ⟨(addIfAbsent ((List.insertionSort keyLe (names.map (ckptPath cfg))).drop
          (names.length + 1 - L)) (newDirOf cfg epoch)).length, by simp [resultLen], ?_⟩
        have hle := addIfAbsent_length_le
          ((List.insertionSort keyLe (names.map (ckptPath cfg))).drop
            (names.length + 1 - L)) (newDirOf cfg epoch)
        have hdl : ((List.insertionSort keyLe (names.map (ckptPath cfg))).drop
            (names.length + 1 - L)).length = names.length - (names.length + 1 - L) := by
          simp [hslen]
        omega
    · rw [gcd_eq_of_not_exceeded cfg names epoch L hL hx]
      refine ⟨?_, ?_, ?_⟩
      · rw [if_neg hx]
        simp [countRmtree, isRmtreeAct]
      · intro p hp
        exact absurd hp (by simp)
      · refine ⟨(addIfAbsent (names.map (ckptPath cfg)) (newDirOf cfg epoch)).length,
          by simp [resultLen], ?_⟩
        have hle := addIfAbsent_length_le (names.map (ckptPath cfg)) (newDirOf cfg epoch)
        simp only [List.length_map] at hle
        omega

/-- C2 witness: the amended theorem applied to the spec's concrete scenario —
retention limit 2 and four pre-existing checkpoint directories — giving
exactly 3 deletions and a final listing of at most (in fact exactly) 2. -/
theorem checkpoint_retention_bound_witness :
    countRmtree (get_checkpoint_dir retentionCfg true retentionNames 5).actions = 3 ∧
    resultLen (get_checkpoint_dir retentionCfg true retentionNames 5) = some 2 := by
  have h := (checkpoint_retention_bound retentionCfg retentionNames 5
    (by decide) (by decide)).2 2 rfl (by decide)
  constructor
  · have h1 := h.1
    simpa using h1
  · decide

/-- C2 counterexample: with a configured retention limit of 0 and one
pre-existing checkpoint directory, the code deletes 1 directory — not the
claimed `n + 1 - L = 2` — and the final listing holds 1 directory, which
exceeds the limit 0.  So the claim is false for every configured limit. -/
theorem checkpoint_retention_limit_zero_cex :
    countRmtree (get_checkpoint_dir limitZeroCfg true limitZeroNames 2).actions = 1 ∧
    limitZeroNames.length + 1 - 0 = 2 ∧
    (1 : Nat) ≠ 2 ∧
    resultLen (get_checkpoint_dir limitZeroCfg true limitZeroNames 2) = some 1 ∧
    ¬ (1 : Nat) ≤ 0 := by
  refine ⟨by decide, by decide, by decide, by decide, by decide⟩

/-- C10: every call to `get_checkpoint_dir`, on every process and on every
control-flow path (including the `IndexError` path), sets
`automatic_checkpoint_naming` to false before performing any filesystem
action — the configuration write is the first action of the trace — and
leaves every other field of the project configuration unchanged. -/
theorem get_checkpoint_dir_config_frame (cfg : ProjectConfiguration)
    (is_local_main_process : Bool) (names : List (List Char)) (epoch : Nat) :
    (get_checkpoint_dir cfg is_local_main_process names epoch).config
      = { cfg with automatic_checkpoint_naming := false } ∧
    (get_checkpoint_dir cfg is_local_main_process names epoch).actions.head?
      = some FsAction.setAutoNamingFalse := by
  cases is_local_main_process with
  | false => exact ⟨rfl, rfl⟩
  | true =>
    cases htl : cfg.total_limit with
    | none => rw [gcd_eq_of_none cfg names epoch htl]; exact ⟨by rw [htl], rfl⟩
    | some L =>
      by_cases hx : L < names.length + 1
      · cases hany : (names.map (ckptPath cfg)).any (fun f => (_inner f).isNone) with
        | true => rw [gcd_eq_of_crash cfg names epoch L htl hx hany]; exact ⟨by rw [htl], rfl⟩
        | false => rw [gcd_eq_of_exceeded cfg names epoch L htl hx hany]; exact ⟨by rw [htl], rfl⟩
      · rw [gcd_eq_of_not_exceeded cfg names epoch L htl hx]; exact ⟨by rw [htl], rfl⟩

theorem emissionCount_succ (L : Nat) (n : Nat) :
    ∀ idx, emissionCount L idx (n + 1)
      = emissionCount L idx n + (if (idx + n) % L = 0 then 1 else 0) := by
  induction n with
  | zero =>
    intro idx
    simp [emissionCount]
  | succ n ih =>
    intro idx
    show (if idx % L = 0 then 1 else 0) + emissionCount L (idx + 1) (n + 1)
      = emissionCount L idx (n + 1) + (if (idx + (n + 1)) % L = 0 then 1 else 0)
    rw [ih (idx + 1)]
    show (if idx % L = 0 then 1 else 0)
        + (emissionCount L (idx + 1) n + (if (idx + 1 + n) % L = 0 then 1 else 0))
      = ((if idx % L = 0 then 1 else 0) + emissionCount L (idx + 1) n)
        + (if (idx + (n + 1)) % L = 0 then 1 else 0)
    rw [show idx + 1 + n = idx + (n + 1) from by omega]
    ring

theorem emissionCount_formula (L B : Nat) (hL : 1 ≤ L) (hB : 1 ≤ B) :
    emissionCount L 0 B = (B - 1) / L + 1 := by
  induction B with
  | zero => omega
  | succ B ih =>
    rcases Nat.eq_zero_or_pos B with hB0 | hB1
    · subst hB0
      show (if 0 % L = 0 then 1 else 0) + emissionCount L 1 0 = 0 / L + 1
      simp [emissionCount]
    · have hstep := emissionCount_succ L B 0
      simp only [Nat.zero_add] at hstep
      rw [hstep, ih hB1]
      have hdiv : B / L = (B - 1) / L + if L ∣ B then 1 else 0 := by
        have := Nat.succ_div (B - 1) L
        rw [show B - 1 + 1 = B from by omega] at this
        exact this
      have hmod : B % L = 0 ↔ L ∣ B := Nat.dvd_iff_mod_eq_zero.symm
      by_cases hd : L ∣ B
      · rw [if_pos (hmod.mpr hd)]
        rw [if_pos hd] at hdiv
        rw [Nat.add_sub_cancel, hdiv]
      · rw [if_neg (fun h => hd (hmod.mp h))]
        rw [if_neg hd] at hdiv
        rw [Nat.add_sub_cancel, hdiv]

theorem runBatches_ok_count (L : Nat) (lr : Rat) (hL : L ≠ 0) :
    ∀ (bs : List Rat) (idx step : Nat) (t : LossTracker),
      ∃ s tr evs, runBatches L (some lr) bs idx step t = Except.ok (s, tr, evs) ∧
        evs.countP isStepLog = emissionCount L idx bs.length := by
  intro bs
  induction bs with
  | nil =>
    intro idx step t
    exact ⟨step, t, [], rfl, by simp [emissionCount]⟩
  | cons v rest ih =>
    intro idx step t
    rcases ih (idx + 1) (step + 1) (t.update v) with ⟨s, tr, evs, heq, hcnt⟩
    by_cases hmod : idx % L = 0
    · refine ⟨s, tr, Event.stepLog (t.update v).loss lr (step + 1) :: evs, ?_, ?_⟩
      · simp [runBatches, hL, hmod, heq]
      · have h1 : (Event.stepLog (t.update v).loss lr (step + 1) :: evs).countP isStepLog
            = evs.countP isStepLog + 1 := by
          simp [List.countP_cons, isStepLog]
        rw [h1, hcnt]
        show emissionCount L (idx + 1) rest.length + 1 = emissionCount L idx (rest.length + 1)
        simp [emissionCount, hmod]
        omega
    · refine ⟨s, tr, evs, ?_, ?_⟩
      · simp [runBatches, hL, hmod, heq]
      · rw [hcnt]
        show emissionCount L (idx + 1) rest.length = emissionCount L idx (rest.length + 1)
        simp [emissionCount, hmod]

/-- C4: with a configured scheduler, an epoch of `B ≥ 1` batches with log
interval `L ≥ 1` emits a step-level metrics record exactly at the 0-based
batch indices divisible by `L` (index 0 included), for a total of
`(B - 1) / L + 1` emissions; and in the spec's concrete scenario — 2 epochs,
log interval 1, 3 batches per epoch, no validation, checkpointing disabled —
the run emits exactly 6 step-level records and 2 epoch-end `train/loss`
records. -/
theorem step_log_emission_count :
    (∀ (lr : Rat) (L : Nat) (bs : List Rat) (step : Nat) (t : LossTracker),
      1 ≤ L → bs ≠ [] →
      ∃ s tr evs, runBatches L (some lr) bs 0 step t = Except.ok (s, tr, evs) ∧
        evs.countP isStepLog = emissionCount L 0 bs.length ∧
        evs.countP isStepLog = (bs.length - 1) / L + 1) ∧
    stepLogCount (trainLoop scenarioCfg scenarioBatches none) = 6 ∧
    epochLogCount (trainLoop scenarioCfg scenarioBatches none) = 2 := by
  refine ⟨?_, by decide, by decide⟩
  intro lr L bs step t hL hne
  rcases runBatches_ok_count L lr (by omega) bs 0 step t with ⟨s, tr, evs, heq, hcnt⟩
  have hB : 1 ≤ bs.length := List.length_pos.mpr hne
  exact ⟨s, tr, evs, heq, hcnt,
    by rw [hcnt, emissionCount_formula L bs.length hL hB]⟩

/-- C4 witness: the theorem applied to a 3-batch epoch with log interval 2,
giving `(3 - 1) / 2 + 1 = 2` step-level emissions. -/
theorem step_log_emission_count_witness :
    ∃ s tr evs, runBatches 2 (some 1) [5, 7, 9] 0 0 (freshLossTracker 4)
        = Except.ok (s, tr, evs) ∧
      evs.countP isStepLog = emissionCount 2 0 ([5, 7, 9] : List Rat).length ∧
      evs.countP isStepLog = (([5, 7, 9] : List Rat).length - 1) / 2 + 1 :=
  step_log_emission_count.1 1 2 [5, 7, 9] 0 (freshLossTracker 4) (by decide) (by simp)

/-- C5: when no learning-rate scheduler is configured, a positive log
interval and a nonempty training data source make the always-firing emission
at batch index 0 evaluate `get_lr` on `None`, so the whole training loop
raises and cannot complete even one epoch. -/
theorem missing_scheduler_crashes (cfg : TrainerConfig) (tb : List Rat)
    (vb : Option (List Rat)) (h1 : cfg.lr_sched = none)
    (h2 : 1 ≤ cfg.log_interval) (h3 : 1 ≤ cfg.epochs) (h4 : tb ≠ []) :
    trainLoop cfg tb vb = Except.error TrainError.noScheduler := by
  obtain ⟨n, hn⟩ : ∃ n, cfg.epochs = n + 1 := ⟨cfg.epochs - 1, by omega⟩
  obtain ⟨v, rest, rfl⟩ : ∃ v rest, tb = v :: rest := by
    cases tb with
    | nil => exact absurd rfl h4
    | cons v rest => exact ⟨v, rest, rfl⟩
  have hz : cfg.log_interval ≠ 0 := by omega
  have hrb : runBatches cfg.log_interval cfg.lr_sched (v :: rest) 0 0 (freshLossTracker 4)
      = Except.error TrainError.noScheduler := by
    simp [runBatches, hz, h1, Nat.zero_mod]
  rw [trainLoop, hn]
  simp [runEpochs, runEpoch, hrb]

/-- C5 witness: a 1-epoch configuration with log interval 1, no scheduler and
one batch raises the scheduler error. -/
theorem missing_scheduler_crashes_witness :
    trainLoop
      { epochs := 1, log_interval := 1, lr_sched := none
        save_on_epoch_end := false, is_local_main_process := true } [5] none
      = Except.error TrainError.noScheduler :=
  missing_scheduler_crashes _ [5] none rfl (by decide) (by decide) (by simp)

end SftTrainer
